import Mathlib

/-!
Shallow embedding of `pkg/golinters/revive.go` (the golangci-lint revive
adapter).

Conventions of the embedding:
* Go `float64` confidence scores are modelled as exact rationals; the only
  float operations in the source are a comparison with `0`, assignment of the
  literal `0.8` and an order comparison, all of which rationals model
  faithfully.
* Go maps are modelled as association lists in insertion order; map iteration
  order in Go is unspecified, so the list order is one admissible refinement.
* Go run-time failures of the unchecked type assertions in `safeTomlSlice`
  (`elt.(map[any]any)` and `k.(string)`) are modelled with `Except`.
* Rule objects carry no state that this file inspects besides their `Name()`
  string, so the rule catalogues are modelled as lists of the rule names
  returned by the external revive library.
-/

namespace Revive

mutual

/-- Model of a Go `any` value as it can appear in a revive rule argument
list: scalars, an arbitrarily-keyed map (`map[any]any`) and a string-keyed
map (`map[string]any`). Mutual with the entry lists of the two map shapes so
that decidable equality is derivable. -/
inductive GoValue where
  | str (s : String)
  | int (n : Int)
  | boolean (b : Bool)
  | float (q : ℚ)
  | anyMap (entries : GoEntries)
  | strMap (entries : GoStrEntries)
deriving DecidableEq

/-- Entry list of a Go `map[any]any` (in iteration order). -/
inductive GoEntries where
  | nil
  | cons (k v : GoValue) (rest : GoEntries)
deriving DecidableEq

/-- Entry list of a Go `map[string]any` (in iteration order). -/
inductive GoStrEntries where
  | nil
  | cons (k : String) (v : GoValue) (rest : GoStrEntries)
deriving DecidableEq

end

/-- One user-level rule override (`config.ReviveRule`, the fields read by
`createConfigMap`). Modelled from the spec: the struct itself lives in
`pkg/config`, outside the sources at hand; per the spec a rule override
carries name, severity override, free-form argument list and disabled flag. -/
structure SettingsRule where
  name : String := ""
  severity : String := ""
  arguments : List GoValue := []
  disabled : Bool := false
deriving DecidableEq

/-- One user-level directive override (`config.ReviveDirective`). Modelled
from the spec: a directive override carries name and severity override. -/
structure SettingsDirective where
  name : String := ""
  severity : String := ""
deriving DecidableEq

/-- The user-facing settings object (`config.ReviveSettings`). Modelled from
the spec (§3 Settings) together with the fields the source reads: confidence
threshold, global severity, ignore-generated-header flag, error/warning exit
codes, enable-all-rules flag, rule overrides, directive overrides, and the
max-open-files knob passed to the engine. The default of every field is the
Go zero value. -/
structure ReviveSettings where
  maxOpenFiles : Int := 0
  ignoreGeneratedHeader : Bool := false
  confidence : ℚ := 0
  severity : String := ""
  errorCode : Int := 0
  warningCode : Int := 0
  enableAllRules : Bool := false
  directives : List SettingsDirective := []
  rules : List SettingsRule := []
deriving DecidableEq

/-- The zero `config.ReviveSettings` value, `&config.ReviveSettings{}` in
`getReviveConfig`. -/
def emptyReviveSettings : ReviveSettings := {}

/-- The fixed linter identifier string `reviveName`. -/
def reviveName : String := "revive"

/-- Name of `rule.ExportedRule` in the revive library (the
exported-symbol-documentation rule), compared against in `reviveToIssue`. -/
def exportedRuleName : String := "exported"

/-- Names of the rules of `defaultRules` (revive's default rule catalogue,
copied into the source from revive v1.3.5 `config/config.go`). The source
lists rule objects; this embedding keeps their `Name()` strings, in slice
order. -/
def defaultRules : List String :=
  [ "var-declaration"
  , "package-comments"
  , "dot-imports"
  , "blank-imports"
  , exportedRuleName
  , "var-naming"
  , "indent-error-flow"
  , "range"
  , "errorf"
  , "error-naming"
  , "error-strings"
  , "receiver-naming"
  , "increment-decrement"
  , "error-return"
  , "unexported-return"
  , "time-naming"
  , "context-keys-type"
  , "context-as-argument"
  , "empty-block"
  , "superfluous-else"
  , "unused-parameter"
  , "unreachable-code"
  , "redefines-builtin-id" ]

/-- Names of the rules of `allRules`: in the source
`append([]lint.Rule{ ...the non-default rules... }, defaultRules...)`. -/
def allRules : List String :=
  [ "argument-limit"
  , "cyclomatic"
  , "file-header"
  , "confusing-naming"
  , "get-return"
  , "modifies-parameter"
  , "confusing-results"
  , "deep-exit"
  , "add-constant"
  , "flag-parameter"
  , "unnecessary-stmt"
  , "struct-tag"
  , "modifies-value-receiver"
  , "constant-logical-expr"
  , "bool-literal-in-expr"
  , "imports-blacklist"
  , "function-result-limit"
  , "max-public-structs"
  , "range-val-in-closure"
  , "range-val-address"
  , "waitgroup-by-value"
  , "atomic"
  , "empty-lines"
  , "line-length-limit"
  , "call-to-gc"
  , "duplicated-imports"
  , "import-shadowing"
  , "bare-return"
  , "unused-receiver"
  , "unhandled-error"
  , "cognitive-complexity"
  , "string-of-int"
  , "string-format"
  , "early-return"
  , "unconditional-recursion"
  , "identical-branches"
  , "defer"
  , "unexported-naming"
  , "function-length"
  , "nested-structs"
  , "useless-break"
  , "unchecked-type-assertion"
  , "time-equal"
  , "banned-characters"
  , "optimize-operands-order"
  , "use-any"
  , "datarace"
  , "comment-spacings"
  , "if-return"
  , "redundant-import-alias"
  , "import-alias-naming"
  , "enforce-map-style"
  , "enforce-repeated-arg-type-style"
  , "enforce-slice-style" ] ++ defaultRules

/-- The constant `defaultConfidence = 0.8`, written as the reduced fraction `4/5` with
explicit numerator and denominator so that kernel evaluation of comparisons
against it never has to normalize a fraction. `defaultConfidence_eq` below
identifies it with `0.8`. -/
def defaultConfidence : ℚ := ⟨4, 5, by norm_num, by norm_num⟩

/-- The constant `lint.SeverityWarning` of the revive library. -/
def severityWarning : String := "warning"

/-- Per-rule configuration (`lint.RuleConfig` of the revive library, the
fields this source reads and writes): argument list, severity, disabled flag.
The default is the Go zero value `lint.RuleConfig{}`. -/
structure RuleConfig where
  arguments : List GoValue := []
  severity : String := ""
  disabled : Bool := false
deriving DecidableEq

/-- Per-directive configuration (`lint.DirectiveConfig`): severity. -/
structure DirectiveConfig where
  severity : String := ""
deriving DecidableEq

/-- Engine-native configuration (`lint.Config` of the revive library, the
fields this source reads and writes). The rule and directive maps are
association lists in insertion order. -/
structure Config where
  ignoreGeneratedHeader : Bool := false
  confidence : ℚ := 0
  severity : String := ""
  errorCode : Int := 0
  warningCode : Int := 0
  enableAllRules : Bool := false
  rules : List (String × RuleConfig) := []
  directives : List (String × DirectiveConfig) := []
deriving DecidableEq

/-- Go map assignment `m[k] = v` on the association-list model: overwrite the
value at an existing key in place, otherwise append the new binding. -/
def mapInsert {α : Type} (m : List (String × α)) (k : String) (v : α) :
    List (String × α) :=
  if (m.lookup k).isSome then
    m.map (fun p => if p.1 = k then (p.1, v) else p)
  else
    m ++ [(k, v)]

/-- Predicate `isAnyMap v`, holding when the Go type assertion `v.(map[any]any)` would
succeed. -/
def isAnyMap : GoValue → Bool
  | .anyMap _ => true
  | _ => false

/-- The inner loop of `safeTomlSlice` over one `map[any]any`: each key is
downcast with `k.(string)`; a non-string key is a run-time type-assertion
failure, modelled as an error. -/
def coerceEntries : GoEntries → Except String GoStrEntries
  | .nil => Except.ok .nil
  | .cons k v rest =>
    match k with
    | .str s => do
        let typedRest ← coerceEntries rest
        Except.ok (.cons s v typedRest)
    | _ => Except.error "interface conversion: interface is not string"

/-- One iteration of the outer loop of `safeTomlSlice`: the element is
downcast with `elt.(map[any]any)` (failure for a non-map element) and rebuilt
as a `map[string]any`. -/
def coerceItem : GoValue → Except String GoValue
  | .anyMap entries => do
      let typedEntries ← coerceEntries entries
      Except.ok (.strMap typedEntries)
  | _ => Except.error "interface conversion: interface is not map"

/-- Function `safeTomlSlice`: an empty slice becomes `nil` (modelled `none`); when the
first element is not a `map[any]any` the slice is returned unchanged;
otherwise every element is rebuilt with string-keyed maps (a non-map element
or a non-string key is a run-time failure, modelled as an error). -/
def safeTomlSlice (r : List GoValue) : Except String (Option (List GoValue)) :=
  match r with
  | [] => Except.ok none
  | r0 :: rest =>
    if isAnyMap r0 then do
      let typed ← (r0 :: rest).mapM coerceItem
      Except.ok (some typed)
    else
      Except.ok (some (r0 :: rest))

/-- Raw per-rule table produced by `createConfigMap` (the inner
`map[string]any` with keys severity, arguments, disabled). `arguments` is the
`safeTomlSlice` result, where `none` models Go `nil`. -/
structure RawRule where
  severity : String := ""
  arguments : Option (List GoValue) := none
  disabled : Bool := false
deriving DecidableEq

/-- Raw per-directive table produced by `createConfigMap`. -/
structure RawDirective where
  severity : String := ""
deriving DecidableEq

/-- The raw configuration tree `rawRoot` built by `createConfigMap`: the six
fixed scalar keys plus the optional `directive` and `rule` tables (`none`
models the key being absent from the Go map). -/
structure RawRoot where
  ignoreGeneratedHeader : Bool := false
  confidence : ℚ := 0
  severity : String := ""
  errorCode : Int := 0
  warningCode : Int := 0
  enableAllRules : Bool := false
  directive : Option (List (String × RawDirective)) := none
  rule : Option (List (String × RawRule)) := none
deriving DecidableEq

/-- One iteration of the rule loop of `createConfigMap`: normalize the
argument list with `safeTomlSlice` and assign the inner table at the rule
name. -/
def addRawRule (m : List (String × RawRule)) (s : SettingsRule) :
    Except String (List (String × RawRule)) := do
  let args ← safeTomlSlice s.arguments
  pure (mapInsert m s.name ⟨s.severity, args, s.disabled⟩)

/-- The directive loop of `createConfigMap`: the per-directive tables keyed
by directive name. -/
def rawDirectivesOf (cfg : ReviveSettings) : List (String × RawDirective) :=
  cfg.directives.foldl
    (fun m directive => mapInsert m directive.name ⟨directive.severity⟩) []

/-- Function `createConfigMap`: builds the raw tree from the settings. The run-time
type-assertion failure of `safeTomlSlice` propagates (in Go it would unwind
through this pure function). -/
def createConfigMap (cfg : ReviveSettings) : Except String RawRoot := do
  let rawRules ← cfg.rules.foldlM addRawRule []
  pure
    { ignoreGeneratedHeader := cfg.ignoreGeneratedHeader
    , confidence := cfg.confidence
    , severity := cfg.severity
    , errorCode := cfg.errorCode
    , warningCode := cfg.warningCode
    , enableAllRules := cfg.enableAllRules
    , directive :=
      if (rawDirectivesOf cfg).length > 0 then some (rawDirectivesOf cfg)
      else none
    , rule := if rawRules.length > 0 then some rawRules else none }

/-- Decoding of one raw rule table into `lint.RuleConfig`: a `nil` argument
slice decodes to the empty argument list. -/
def decodeRuleConfig (r : RawRule) : RuleConfig :=
  { arguments := r.arguments.getD [], severity := r.severity,
    disabled := r.disabled }

/-- The TOML round trip of `getReviveConfig` (encode `rawRoot` with
`toml.NewEncoder`, decode into `lint.Config`). The BurntSushi TOML library is
external; on trees of the fixed shape produced by `createConfigMap` the round
trip is faithful and is modelled as the evident structural conversion (an
absent table decodes to the empty map, a `nil` argument slice is omitted by
the encoder and decodes to an empty argument list). -/
def decodeConfig (root : RawRoot) : Config :=
  { ignoreGeneratedHeader := root.ignoreGeneratedHeader
  , confidence := root.confidence
  , severity := root.severity
  , errorCode := root.errorCode
  , warningCode := root.warningCode
  , enableAllRules := root.enableAllRules
  , rules := (root.rule.getD []).map (fun p => (p.1, decodeRuleConfig p.2))
  , directives := (root.directive.getD []).map (fun p => (p.1, ⟨p.2.severity⟩)) }

/-- Lines 341-343 of `normalizeConfig`: fill the default confidence. -/
def fillConfidence (cfg : Config) : Config :=
  if cfg.confidence = 0 then { cfg with confidence := defaultConfidence }
  else cfg

/-- Lines 344-346 of `normalizeConfig`: fill the default severity. -/
def fillSeverity (cfg : Config) : Config :=
  if cfg.severity = "" then { cfg with severity := severityWarning }
  else cfg

/-- Lines 349-351 of `normalizeConfig`: initialize an empty rule map. -/
def initRules (cfg : Config) : Config :=
  if cfg.rules.length = 0 then { cfg with rules := [] }
  else cfg

/-- One iteration of the enable-all-rules loop of `normalizeConfig`: insert
the rule with the zero `lint.RuleConfig{}` unless it is already configured
(explicit configuration wins). -/
def insertIfAbsent (m : List (String × RuleConfig)) (ruleName : String) :
    List (String × RuleConfig) :=
  if (m.lookup ruleName).isSome then m
  else m ++ [(ruleName, ({} : RuleConfig))]

/-- Lines 352-363 of `normalizeConfig`: when enable-all-rules is set, add to
the configuration all rules of the full catalogue not yet present in it. -/
def expandAllRules (cfg : Config) : Config :=
  if cfg.enableAllRules then
    { cfg with rules := allRules.foldl insertIfAbsent cfg.rules }
  else cfg

/-- Body of the severity-propagation loop over the rule map: the key is kept
and the value severity is filled when empty. -/
def normalizeRuleSeverity (severity : String) (p : String × RuleConfig) :
    String × RuleConfig :=
  (p.1, if p.2.severity = "" then { p.2 with severity := severity } else p.2)

/-- Body of the severity-propagation loop over the directive map. -/
def normalizeDirectiveSeverity (severity : String)
    (p : String × DirectiveConfig) : String × DirectiveConfig :=
  (p.1, if p.2.severity = "" then { p.2 with severity := severity } else p.2)

/-- Lines 365-379 of `normalizeConfig`: propagate the global severity to
every rule and directive entry whose severity is empty. -/
def propagateSeverity (cfg : Config) : Config :=
  if cfg.severity ≠ "" then
    { cfg with
      rules := cfg.rules.map (normalizeRuleSeverity cfg.severity)
    , directives := cfg.directives.map (normalizeDirectiveSeverity cfg.severity) }
  else cfg

/-- Function `normalizeConfig`: the five in-place steps of the source, in statement
order. -/
def normalizeConfig (cfg : Config) : Config :=
  propagateSeverity (expandAllRules (initRules (fillSeverity (fillConfidence cfg))))

/-- Function `defaultConfig`: confidence 0.8, severity warning, and the zero
`lint.RuleConfig{}` for every rule of the default catalogue. -/
def defaultConfig : Config :=
  defaultRules.foldl
    (fun conf r => { conf with rules := mapInsert conf.rules r {} })
    { confidence := defaultConfidence
    , severity := severityWarning
    , rules := [] }

/-- Function `getReviveConfig`: the zero settings keep `defaultConfig`, any other
settings are mapped through `createConfigMap` and the TOML round trip; both
paths end with `normalizeConfig`. -/
def getReviveConfig (cfg : ReviveSettings) : Except String Config :=
  if cfg = emptyReviveSettings then
    Except.ok (normalizeConfig defaultConfig)
  else do
    let rawRoot ← createConfigMap cfg
    let conf := decodeConfig rawRoot
    pure (normalizeConfig conf)

/-- A `go/token` position as kept in a revive failure (filename, byte
offset, line, column). -/
structure TokenPosition where
  filename : String := ""
  offset : Int := 0
  line : Int := 0
  column : Int := 0
deriving DecidableEq

/-- The position range of a revive failure (`lint.FailurePosition`):
`startPos` models the Go field `Start`, `endPos` the Go field `End`. -/
structure FailurePosition where
  startPos : TokenPosition := {}
  endPos : TokenPosition := {}
deriving DecidableEq

/-- One raw failure of the revive engine (`lint.Failure`, the fields this
source reads): message text (the Go field is itself named `Failure`), rule
name, confidence and position range. -/
structure Failure where
  failure : String := ""
  ruleName : String := ""
  confidence : ℚ := 0
  position : FailurePosition := {}
deriving DecidableEq

/-- The `jsonObject` shape: a severity paired with an inlined `lint.Failure`, the shape
in which the JSON formatter output is decoded. -/
structure JsonObject where
  severity : String := ""
  failure : Failure := {}
deriving DecidableEq

/-- An inclusive line range of a reported issue (`result.Range`). -/
structure IssueRange where
  fromLine : Int := 0
  toLine : Int := 0
deriving DecidableEq

/-- A host-facing issue (`result.Issue`, the fields this source fills). -/
structure Issue where
  severity : String := ""
  text : String := ""
  pos : TokenPosition := {}
  lineRange : IssueRange := {}
  fromLinter : String := ""
deriving DecidableEq

/-- Function `reviveToIssue`: the line range ends at the failure end line except for
the exported rule, where it collapses to the start line; the message is
composed as rule name, colon, failure text; the anchor position is copied
from the start position. -/
def reviveToIssue (object : JsonObject) : Issue :=
  let lineRangeTo :=
    if object.failure.ruleName = exportedRuleName then
      object.failure.position.startPos.line
    else
      object.failure.position.endPos.line
  { severity := object.severity
  , text := object.failure.ruleName ++ ": " ++ object.failure.failure
  , pos :=
    { filename := object.failure.position.startPos.filename
    , line := object.failure.position.startPos.line
    , offset := object.failure.position.startPos.offset
    , column := object.failure.position.startPos.column }
  , lineRange :=
    { fromLine := object.failure.position.startPos.line, toLine := lineRangeTo }
  , fromLinter := reviveName }

/-- The producer-side confidence filter of `runRevive`: a failure with
`f.Confidence < conf.Confidence` is skipped, every other failure is sent to
the formatting stream. -/
def keptFailures (conf : Config) (failures : List Failure) : List Failure :=
  failures.filter (fun f => !(decide (f.confidence < conf.confidence)))

/-- Function `runRevive`, with the outcomes of its external collaborators passed as
arguments: the `getReviveConfig` result, the formatter lookup
(`reviveConfig.GetFormatter`), the rule resolution
(`reviveConfig.GetLintingRules`), the engine run (`revive.Lint`, a failure
stream on success), the JSON formatter applied to one failure (`encode`, the
composition of `formatter.Format` and the element shape of `json.Unmarshal`),
and the outcome of `json.Unmarshal` itself. A formatter error inside the
goroutine is only logged in the source, so it does not surface here either.
The Go return pair `([]goanalysis.Issue, error)` is modelled with an `Option`
on each side. -/
def runRevive (confRes : Except String Config)
    (formatterRes : Except String Unit) (rulesRes : Except String Unit)
    (lintRes : Except String (List Failure)) (encode : Failure → JsonObject)
    (unmarshalRes : Except String Unit) :
    Option (List Issue) × Option String :=
  match confRes with
  | .error e => (none, some e)
  | .ok conf =>
    match formatterRes with
    | .error e => (none, some e)
    | .ok _ =>
      match rulesRes with
      | .error e => (none, some e)
      | .ok _ =>
        match lintRes with
        | .error e => (none, some e)
        | .ok failures =>
          let results := (keptFailures conf failures).map encode
          match unmarshalRes with
          | .error e => (none, some e)
          | .ok _ => (some (results.map reviveToIssue), none)

/-- Whether a Go value is a string (the shapes `k.(string)` accepts). -/
def isStringValue : GoValue → Bool
  | .str _ => true
  | _ => false

/-- The string carried by a string value (and a placeholder otherwise; only
used beneath an `isStringValue` guard). -/
def strValue : GoValue → String
  | .str s => s
  | _ => ""

/-- Whether every key of a `map[any]any` entry list is a string. -/
def GoEntries.allStringKeys : GoEntries → Bool
  | .nil => true
  | .cons k _ rest => isStringValue k && rest.allStringKeys

/-- Whether a value is a `map[any]any` all of whose keys are strings, the
spec notion of a map-like argument entry with string-representable keys. -/
def isStringKeyedAnyMap : GoValue → Bool
  | .anyMap entries => entries.allStringKeys
  | _ => false

/-- Modelled from the spec: key coercion of one entry list, "keys are coerced
from an arbitrary-key map to a string-keyed map". Stated independently of the
source loop so that the source behaviour can be compared against it. -/
def GoEntries.stringifyKeys : GoEntries → GoStrEntries
  | .nil => .nil
  | .cons k v rest => .cons (strValue k) v rest.stringifyKeys

/-- Modelled from the spec: the per-element coercion of a map-like argument
to a string-keyed map, leaving every other element untouched. -/
def stringifyKeys : GoValue → GoValue
  | .anyMap entries => .strMap entries.stringifyKeys
  | v => v

/-! ## Association-list lemmas -/

theorem lookup_cons_eq {β : Type} (k a : String) (v : β)
    (l : List (String × β)) :
    List.lookup k ((a, v) :: l) = if k = a then some v else List.lookup k l := by
  rw [List.lookup_cons]
  by_cases h : k = a
  · simp [h]
  · simp [h, beq_eq_false_iff_ne.2 h]

theorem lookup_append {β : Type} (k : String) (l₁ l₂ : List (String × β)) :
    List.lookup k (l₁ ++ l₂) = (List.lookup k l₁).or (List.lookup k l₂) := by
  induction l₁ with
  | nil => simp
  | cons p l ih =>
    obtain ⟨a, v⟩ := p
    simp only [List.cons_append, lookup_cons_eq]
    by_cases h : k = a <;> simp [h, ih]

theorem fst_mem_mapInsert {β : Type} (m : List (String × β)) (k : String)
    (v : β) (p : String × β) (hp : p ∈ mapInsert m k v) :
    p.1 ∈ m.map Prod.fst ∨ p.1 = k := by
  unfold mapInsert at hp
  split at hp
  · rcases List.mem_map.1 hp with ⟨q, hq, he⟩
    by_cases hk : q.1 = k
    · right; rw [← he]; simp [hk]
    · left
      refine List.mem_map.2 ⟨q, hq, ?_⟩
      rw [← he]; simp [hk]
  · rcases List.mem_append.1 hp with h | h
    · left; exact List.mem_map.2 ⟨p, h, rfl⟩
    · right
      simp only [List.mem_singleton] at h
      rw [h]

theorem lookup_insertIfAbsent_isSome (m : List (String × RuleConfig))
    (a k : String) :
    (List.lookup k (insertIfAbsent m a)).isSome ↔
      (List.lookup k m).isSome ∨ k = a := by
  unfold insertIfAbsent
  split
  · rename_i h
    constructor
    · intro hk; exact Or.inl hk
    · rintro (hk | rfl)
      · exact hk
      · exact h
  · rw [lookup_append]
    rw [show List.lookup k [(a, ({} : RuleConfig))]
        = if k = a then some ({} : RuleConfig) else none by
      simp [lookup_cons_eq]]
    cases hm : List.lookup k m <;> by_cases hk : k = a <;> simp [hm, hk]

theorem lookup_foldl_insertIfAbsent_isSome (l : List String)
    (m : List (String × RuleConfig)) (k : String) :
    (List.lookup k (l.foldl insertIfAbsent m)).isSome ↔
      (List.lookup k m).isSome ∨ k ∈ l := by
  induction l generalizing m with
  | nil => simp
  | cons a l ih =>
    rw [List.foldl_cons, ih, lookup_insertIfAbsent_isSome, List.mem_cons]
    tauto

theorem lookup_insertIfAbsent_of_isSome (m : List (String × RuleConfig))
    (a k : String) (h : (List.lookup k m).isSome) :
    List.lookup k (insertIfAbsent m a) = List.lookup k m := by
  unfold insertIfAbsent
  split
  · rfl
  · rw [lookup_append]
    cases hm : List.lookup k m
    · rw [hm] at h; simp at h
    · simp

theorem lookup_foldl_insertIfAbsent_of_isSome (l : List String)
    (m : List (String × RuleConfig)) (k : String)
    (h : (List.lookup k m).isSome) :
    List.lookup k (l.foldl insertIfAbsent m) = List.lookup k m := by
  induction l generalizing m with
  | nil => rfl
  | cons a l ih =>
    rw [List.foldl_cons]
    have hstep := lookup_insertIfAbsent_of_isSome m a k h
    rw [ih _ (by rw [hstep]; exact h), hstep]

theorem foldl_insertIfAbsent_id (l : List String)
    (m : List (String × RuleConfig))
    (h : ∀ a ∈ l, (List.lookup a m).isSome) :
    l.foldl insertIfAbsent m = m := by
  induction l with
  | nil => rfl
  | cons a l ih =>
    rw [List.foldl_cons]
    have ha : insertIfAbsent m a = m := by
      unfold insertIfAbsent
      rw [if_pos (h a (List.mem_cons_self a l))]
    rw [ha]
    exact ih fun b hb => h b (List.mem_cons_of_mem a hb)

theorem mem_foldl_insertIfAbsent (l : List String)
    (m : List (String × RuleConfig)) (p : String × RuleConfig)
    (hp : p ∈ l.foldl insertIfAbsent m) :
    p ∈ m ∨ p.2 = ({} : RuleConfig) := by
  induction l generalizing m with
  | nil => exact Or.inl hp
  | cons a l ih =>
    rw [List.foldl_cons] at hp
    rcases ih _ hp with h | h
    · unfold insertIfAbsent at h
      split at h
      · exact Or.inl h
      · rcases List.mem_append.1 h with h | h
        · exact Or.inl h
        · simp only [List.mem_singleton] at h
          right; rw [h]
    · exact Or.inr h

theorem lookup_map_normalizeRuleSeverity (s k : String)
    (l : List (String × RuleConfig)) :
    List.lookup k (l.map (normalizeRuleSeverity s)) =
      (List.lookup k l).map
        (fun v => if v.severity = "" then { v with severity := s } else v) := by
  induction l with
  | nil => rfl
  | cons p l ih =>
    obtain ⟨a, v⟩ := p
    simp only [List.map_cons, normalizeRuleSeverity, lookup_cons_eq]
    by_cases h : k = a <;> simp [h, ih]

theorem map_normalizeRuleSeverity_id (s : String)
    (l : List (String × RuleConfig)) (h : ∀ p ∈ l, p.2.severity ≠ "") :
    l.map (normalizeRuleSeverity s) = l := by
  induction l with
  | nil => rfl
  | cons p l ih =>
    rw [List.map_cons,
      ih fun q hq => h q (List.mem_cons_of_mem p hq)]
    have hp := h p (List.mem_cons_self p l)
    unfold normalizeRuleSeverity
    rw [if_neg hp]

theorem map_normalizeDirectiveSeverity_id (s : String)
    (l : List (String × DirectiveConfig)) (h : ∀ p ∈ l, p.2.severity ≠ "") :
    l.map (normalizeDirectiveSeverity s) = l := by
  induction l with
  | nil => rfl
  | cons p l ih =>
    rw [List.map_cons,
      ih fun q hq => h q (List.mem_cons_of_mem p hq)]
    have hp := h p (List.mem_cons_self p l)
    unfold normalizeDirectiveSeverity
    rw [if_neg hp]

/-! ## Step lemmas for `normalizeConfig` -/

@[simp] theorem fillConfidence_severity (c : Config) :
    (fillConfidence c).severity = c.severity := by
  unfold fillConfidence; split <;> rfl

@[simp] theorem fillConfidence_rules (c : Config) :
    (fillConfidence c).rules = c.rules := by
  unfold fillConfidence; split <;> rfl

@[simp] theorem fillConfidence_directives (c : Config) :
    (fillConfidence c).directives = c.directives := by
  unfold fillConfidence; split <;> rfl

@[simp] theorem fillConfidence_enableAllRules (c : Config) :
    (fillConfidence c).enableAllRules = c.enableAllRules := by
  unfold fillConfidence; split <;> rfl

theorem fillConfidence_confidence (c : Config) :
    (fillConfidence c).confidence =
      if c.confidence = 0 then defaultConfidence else c.confidence := by
  unfold fillConfidence; split <;> rename_i h <;> simp [h]

@[simp] theorem fillSeverity_confidence (c : Config) :
    (fillSeverity c).confidence = c.confidence := by
  unfold fillSeverity; split <;> rfl

@[simp] theorem fillSeverity_rules (c : Config) :
    (fillSeverity c).rules = c.rules := by
  unfold fillSeverity; split <;> rfl

@[simp] theorem fillSeverity_directives (c : Config) :
    (fillSeverity c).directives = c.directives := by
  unfold fillSeverity; split <;> rfl

@[simp] theorem fillSeverity_enableAllRules (c : Config) :
    (fillSeverity c).enableAllRules = c.enableAllRules := by
  unfold fillSeverity; split <;> rfl

theorem fillSeverity_severity (c : Config) :
    (fillSeverity c).severity =
      if c.severity = "" then severityWarning else c.severity := by
  unfold fillSeverity; split <;> rename_i h <;> simp [h]

theorem initRules_eq (c : Config) : initRules c = c := by
  unfold initRules
  split
  · rename_i h
    rw [List.length_eq_zero] at h
    cases c; simp_all
  · rfl

@[simp] theorem expandAllRules_confidence (c : Config) :
    (expandAllRules c).confidence = c.confidence := by
  unfold expandAllRules; split <;> rfl

@[simp] theorem expandAllRules_severity (c : Config) :
    (expandAllRules c).severity = c.severity := by
  unfold expandAllRules; split <;> rfl

@[simp] theorem expandAllRules_directives (c : Config) :
    (expandAllRules c).directives = c.directives := by
  unfold expandAllRules; split <;> rfl

@[simp] theorem expandAllRules_enableAllRules (c : Config) :
    (expandAllRules c).enableAllRules = c.enableAllRules := by
  unfold expandAllRules; split <;> rfl

theorem expandAllRules_rules (c : Config) :
    (expandAllRules c).rules =
      if c.enableAllRules then allRules.foldl insertIfAbsent c.rules
      else c.rules := by
  unfold expandAllRules; split <;> rename_i h <;> simp [h]

@[simp] theorem propagateSeverity_confidence (c : Config) :
    (propagateSeverity c).confidence = c.confidence := by
  unfold propagateSeverity; split <;> rfl

@[simp] theorem propagateSeverity_severity (c : Config) :
    (propagateSeverity c).severity = c.severity := by
  unfold propagateSeverity; split <;> rfl

@[simp] theorem propagateSeverity_enableAllRules (c : Config) :
    (propagateSeverity c).enableAllRules = c.enableAllRules := by
  unfold propagateSeverity; split <;> rfl

theorem propagateSeverity_rules (c : Config) (h : c.severity ≠ "") :
    (propagateSeverity c).rules =
      c.rules.map (normalizeRuleSeverity c.severity) := by
  unfold propagateSeverity; rw [if_pos h]

theorem propagateSeverity_directives (c : Config) (h : c.severity ≠ "") :
    (propagateSeverity c).directives =
      c.directives.map (normalizeDirectiveSeverity c.severity) := by
  unfold propagateSeverity; rw [if_pos h]

/-! ## Characterization of `normalizeConfig` -/

theorem normalizeConfig_enableAllRules (c : Config) :
    (normalizeConfig c).enableAllRules = c.enableAllRules := by
  unfold normalizeConfig
  simp [initRules_eq]

theorem normalizeConfig_confidence (c : Config) :
    (normalizeConfig c).confidence =
      if c.confidence = 0 then defaultConfidence else c.confidence := by
  unfold normalizeConfig
  simp [initRules_eq, fillConfidence_confidence]

theorem normalizeConfig_severity (c : Config) :
    (normalizeConfig c).severity =
      if c.severity = "" then severityWarning else c.severity := by
  unfold normalizeConfig
  simp [initRules_eq, fillSeverity_severity]

theorem normalizeConfig_severity_ne (c : Config) :
    (normalizeConfig c).severity ≠ "" := by
  rw [normalizeConfig_severity]
  split
  · decide
  · assumption

theorem normalizeConfig_confidence_ne (c : Config) :
    (normalizeConfig c).confidence ≠ 0 := by
  rw [normalizeConfig_confidence]
  split
  · decide
  · assumption

theorem filledSeverity_ne (c : Config) :
    (if c.severity = "" then severityWarning else c.severity) ≠ "" := by
  split
  · decide
  · assumption

theorem normalizeConfig_rules (c : Config) :
    (normalizeConfig c).rules =
      (if c.enableAllRules then allRules.foldl insertIfAbsent c.rules
       else c.rules).map
        (normalizeRuleSeverity
          (if c.severity = "" then severityWarning else c.severity)) := by
  unfold normalizeConfig
  have hs : (expandAllRules (initRules (fillSeverity (fillConfidence c)))).severity
      = if c.severity = "" then severityWarning else c.severity := by
    simp [initRules_eq, fillSeverity_severity]
  rw [propagateSeverity_rules _ (by rw [hs]; exact filledSeverity_ne c), hs,
    expandAllRules_rules]
  simp [initRules_eq]

theorem normalizeConfig_directives (c : Config) :
    (normalizeConfig c).directives =
      c.directives.map
        (normalizeDirectiveSeverity
          (if c.severity = "" then severityWarning else c.severity)) := by
  unfold normalizeConfig
  have hs : (expandAllRules (initRules (fillSeverity (fillConfidence c)))).severity
      = if c.severity = "" then severityWarning else c.severity := by
    simp [initRules_eq, fillSeverity_severity]
  rw [propagateSeverity_directives _ (by rw [hs]; exact filledSeverity_ne c), hs]
  simp [initRules_eq]

theorem normalizeConfig_rules_severity_ne (c : Config) :
    ∀ p ∈ (normalizeConfig c).rules, p.2.severity ≠ "" := by
  rw [normalizeConfig_rules]
  intro p hp
  rcases List.mem_map.1 hp with ⟨q, _, rfl⟩
  unfold normalizeRuleSeverity
  dsimp only
  split
  · exact filledSeverity_ne c
  · assumption

theorem normalizeConfig_directives_severity_ne (c : Config) :
    ∀ p ∈ (normalizeConfig c).directives, p.2.severity ≠ "" := by
  rw [normalizeConfig_directives]
  intro p hp
  rcases List.mem_map.1 hp with ⟨q, _, rfl⟩
  unfold normalizeDirectiveSeverity
  dsimp only
  split
  · exact filledSeverity_ne c
  · assumption

theorem normalizeConfig_allRules_present (c : Config)
    (h : c.enableAllRules = true) :
    ∀ a ∈ allRules, (List.lookup a (normalizeConfig c).rules).isSome := by
  intro a ha
  rw [normalizeConfig_rules, h, if_pos rfl, lookup_map_normalizeRuleSeverity]
  have hsome := (lookup_foldl_insertIfAbsent_isSome allRules c.rules a).2
    (Or.inr ha)
  rcases Option.isSome_iff_exists.1 hsome with ⟨v, hv⟩
  rw [hv]
  rfl

/-! ## Identity of the second normalization pass -/

theorem fillConfidence_id (c : Config) (h : c.confidence ≠ 0) :
    fillConfidence c = c := by
  unfold fillConfidence; rw [if_neg h]

theorem fillSeverity_id (c : Config) (h : c.severity ≠ "") :
    fillSeverity c = c := by
  unfold fillSeverity; rw [if_neg h]

theorem expandAllRules_id_of_present (c : Config)
    (h : c.enableAllRules = true →
      ∀ a ∈ allRules, (List.lookup a c.rules).isSome) :
    expandAllRules c = c := by
  unfold expandAllRules
  split
  · rename_i hb
    rw [foldl_insertIfAbsent_id _ _ (h hb)]
  · rfl

theorem propagateSeverity_id (c : Config) (h1 : c.severity ≠ "")
    (h2 : ∀ p ∈ c.rules, p.2.severity ≠ "")
    (h3 : ∀ p ∈ c.directives, p.2.severity ≠ "") :
    propagateSeverity c = c := by
  unfold propagateSeverity
  rw [if_pos h1, map_normalizeRuleSeverity_id _ _ h2,
    map_normalizeDirectiveSeverity_id _ _ h3]

theorem defaultConfidence_eq : defaultConfidence = 0.8 := by
  have h : defaultConfidence = 4 / 5 := by
    simpa using (Rat.num_div_den defaultConfidence).symm
  rw [h]; norm_num

/-! ## Claim theorems -/

/-- Claim C5: `normalizeConfig` is idempotent: for every configuration `c`,
applying it twice yields the same configuration as applying it once. -/
theorem normalizeConfig_idempotent (c : Config) :
    normalizeConfig (normalizeConfig c) = normalizeConfig c := by
  conv_lhs => rw [normalizeConfig]
  rw [fillConfidence_id _ (normalizeConfig_confidence_ne c),
    fillSeverity_id _ (normalizeConfig_severity_ne c),
    initRules_eq,
    expandAllRules_id_of_present _ (fun hb =>
      normalizeConfig_allRules_present c
        (by rwa [normalizeConfig_enableAllRules] at hb)),
    propagateSeverity_id _ (normalizeConfig_severity_ne c)
      (normalizeConfig_rules_severity_ne c)
      (normalizeConfig_directives_severity_ne c)]

/-- Claim C1: for the all-zero settings, `getReviveConfig` resolves to a
configuration with confidence `0.8`, global severity `warning`, and a rule
map holding exactly the names of the default rule catalogue, each entry with
severity `warning` after normalization. -/
theorem getReviveConfig_zero_settings :
    getReviveConfig emptyReviveSettings
        = Except.ok (normalizeConfig defaultConfig)
    ∧ (normalizeConfig defaultConfig).confidence = 0.8
    ∧ (normalizeConfig defaultConfig).severity = "warning"
    ∧ (normalizeConfig defaultConfig).rules.map Prod.fst = defaultRules
    ∧ ∀ p ∈ (normalizeConfig defaultConfig).rules,
        p.2.severity = "warning" := by
  refine ⟨rfl, ?_, by decide, by decide, by decide⟩
  have h : (normalizeConfig defaultConfig).confidence = defaultConfidence := by
    decide
  rw [h, defaultConfidence_eq]

/-- Claim C4: `reviveToIssue` collapses the line range to
`[startLine, startLine]` exactly for the exported rule and keeps
`[startLine, endLine]` for every other rule; the message is composed as
`ruleName: failureMessage` and the anchor position is the failure's start
position. -/
theorem reviveToIssue_shape (object : JsonObject) :
    (object.failure.ruleName = exportedRuleName →
      (reviveToIssue object).lineRange =
        { fromLine := object.failure.position.startPos.line
        , toLine := object.failure.position.startPos.line })
    ∧ (object.failure.ruleName ≠ exportedRuleName →
      (reviveToIssue object).lineRange =
        { fromLine := object.failure.position.startPos.line
        , toLine := object.failure.position.endPos.line })
    ∧ (reviveToIssue object).text =
        object.failure.ruleName ++ ": " ++ object.failure.failure
    ∧ (reviveToIssue object).pos = object.failure.position.startPos := by
  unfold reviveToIssue
  refine ⟨fun h => ?_, fun h => ?_, rfl, rfl⟩
  · simp [h]
  · simp [h]

theorem reviveToIssue_shape_witness :
    (reviveToIssue
        { severity := "warning"
        , failure :=
          { failure := "msg", ruleName := exportedRuleName, confidence := 1
          , position :=
            { startPos := { filename := "a.go", offset := 5, line := 10, column := 2 }
            , endPos := { filename := "a.go", offset := 9, line := 14, column := 3 } } } }).lineRange
      = { fromLine := 10, toLine := 10 }
    ∧ (reviveToIssue
        { severity := "warning"
        , failure :=
          { failure := "msg", ruleName := "range", confidence := 1
          , position :=
            { startPos := { filename := "a.go", offset := 5, line := 10, column := 2 }
            , endPos := { filename := "a.go", offset := 9, line := 14, column := 3 } } } }).lineRange
      = { fromLine := 10, toLine := 14 } :=
  ⟨(reviveToIssue_shape _).1 rfl, (reviveToIssue_shape _).2.1 (by decide)⟩

/-- Claim C10: every rule of the default catalogue also appears in the full
catalogue, so enable-all expansion always yields an entry for every default
rule. -/
theorem defaultRules_subset_allRules :
    (∀ r ∈ defaultRules, r ∈ allRules)
    ∧ ∀ (c : Config), c.enableAllRules = true →
        ∀ n ∈ defaultRules,
          (List.lookup n (normalizeConfig c).rules).isSome := by
  have hsub : ∀ r ∈ defaultRules, r ∈ allRules := by decide
  exact ⟨hsub, fun c hc n hn =>
    normalizeConfig_allRules_present c hc n (hsub n hn)⟩

theorem defaultRules_subset_allRules_witness :
    exportedRuleName ∈ allRules
    ∧ (List.lookup exportedRuleName
        (normalizeConfig { enableAllRules := true }).rules).isSome :=
  ⟨defaultRules_subset_allRules.1 exportedRuleName (by decide),
   defaultRules_subset_allRules.2 { enableAllRules := true } rfl
     exportedRuleName (by decide)⟩

/-- Claim C3: the issues produced by a successful `runRevive` are exactly the
converted images of the failures that pass the confidence filter, and a
failure is kept by the filter precisely when it comes from the failure stream
and its confidence is at or above the configured threshold; one strictly
below the threshold is dropped before the formatting stream. -/
theorem runRevive_confidence_filtering (conf : Config)
    (failures : List Failure) (encode : Failure → JsonObject) :
    (runRevive (Except.ok conf) (Except.ok ()) (Except.ok ())
        (Except.ok failures) encode (Except.ok ())).1
      = some (((keptFailures conf failures).map encode).map reviveToIssue)
    ∧ ∀ f, f ∈ keptFailures conf failures ↔
        f ∈ failures ∧ conf.confidence ≤ f.confidence := by
  refine ⟨rfl, fun f => ?_⟩
  unfold keptFailures
  rw [List.mem_filter]
  constructor
  · rintro ⟨h1, h2⟩
    simp only [Bool.not_eq_true', decide_eq_false_iff_not, not_lt] at h2
    exact ⟨h1, h2⟩
  · rintro ⟨h1, h2⟩
    refine ⟨h1, ?_⟩
    simp only [Bool.not_eq_true', decide_eq_false_iff_not, not_lt]
    exact h2

/-- Claim C8: `runRevive` is atomic on error: it returns an error exactly
when it returns no issue list, and each failing stage (configuration
resolution, formatter lookup, rule resolution, engine execution, result
decoding) yields the pair of no issues and that stage's error. -/
theorem runRevive_atomic_on_error (confRes : Except String Config)
    (formatterRes rulesRes : Except String Unit)
    (lintRes : Except String (List Failure)) (encode : Failure → JsonObject)
    (unmarshalRes : Except String Unit) (conf : Config)
    (failures : List Failure) (e : String) :
    ((runRevive confRes formatterRes rulesRes lintRes encode
        unmarshalRes).2.isSome
      ↔ (runRevive confRes formatterRes rulesRes lintRes encode
        unmarshalRes).1 = none)
    ∧ runRevive (Except.error e) formatterRes rulesRes lintRes encode
        unmarshalRes = (none, some e)
    ∧ runRevive (Except.ok conf) (Except.error e) rulesRes lintRes encode
        unmarshalRes = (none, some e)
    ∧ runRevive (Except.ok conf) (Except.ok ()) (Except.error e) lintRes
        encode unmarshalRes = (none, some e)
    ∧ runRevive (Except.ok conf) (Except.ok ()) (Except.ok ())
        (Except.error e) encode unmarshalRes = (none, some e)
    ∧ runRevive (Except.ok conf) (Except.ok ()) (Except.ok ())
        (Except.ok failures) encode (Except.error e) = (none, some e) := by
  refine ⟨?_, rfl, rfl, rfl, rfl, rfl⟩
  rcases confRes with e1 | c1
  · simp [runRevive]
  rcases formatterRes with e2 | u2
  · simp [runRevive]
  rcases rulesRes with e3 | u3
  · simp [runRevive]
  rcases lintRes with e4 | fs4
  · simp [runRevive]
  rcases unmarshalRes with e5 | u5
  · simp [runRevive]
  · simp [runRevive]

/-- Claim C2: for a configuration with enable-all-rules set and a single
explicitly configured rule carrying a non-empty severity, after
`normalizeConfig` every rule of the full catalogue is present, the explicit
rule keeps its configuration (in particular its custom severity), and every
other entry carries the global severity. -/
theorem normalizeConfig_enableAll_expansion (c : Config) (n : String)
    (rc : RuleConfig) (h1 : c.enableAllRules = true)
    (h2 : c.rules = [(n, rc)]) (h3 : rc.severity ≠ "") :
    (∀ m ∈ allRules, (List.lookup m (normalizeConfig c).rules).isSome)
    ∧ List.lookup n (normalizeConfig c).rules = some rc
    ∧ ∀ p ∈ (normalizeConfig c).rules, p.1 ≠ n →
        p.2.severity = (normalizeConfig c).severity := by
  refine ⟨normalizeConfig_allRules_present c h1, ?_, ?_⟩
  · rw [normalizeConfig_rules, h1, if_pos rfl, h2,
      lookup_map_normalizeRuleSeverity,
      lookup_foldl_insertIfAbsent_of_isSome _ _ _
        (by rw [lookup_cons_eq, if_pos rfl]; rfl),
      lookup_cons_eq, if_pos rfl, Option.map_some', if_neg h3]
  · intro p hp hne
    rw [normalizeConfig_rules, h1, if_pos rfl, h2] at hp
    rcases List.mem_map.1 hp with ⟨q, hq, rfl⟩
    rcases mem_foldl_insertIfAbsent _ _ _ hq with hq1 | hq2
    · exfalso
      simp only [List.mem_singleton] at hq1
      exact hne (by rw [hq1]; rfl)
    · rw [normalizeConfig_severity]
      unfold normalizeRuleSeverity
      dsimp only
      rw [hq2]
      simp

theorem normalizeConfig_enableAll_expansion_witness :
    (∀ m ∈ allRules,
      (List.lookup m (normalizeConfig
        { enableAllRules := true
        , rules := [(exportedRuleName, { severity := "error" })] }).rules).isSome)
    ∧ List.lookup exportedRuleName (normalizeConfig
        { enableAllRules := true
        , rules := [(exportedRuleName, { severity := "error" })] }).rules
      = some { severity := "error" }
    ∧ ∀ p ∈ (normalizeConfig
        { enableAllRules := true
        , rules := [(exportedRuleName, { severity := "error" })] }).rules,
        p.1 ≠ exportedRuleName →
        p.2.severity = (normalizeConfig
          { enableAllRules := true
          , rules := [(exportedRuleName, { severity := "error" })] }).severity :=
  normalizeConfig_enableAll_expansion
    { enableAllRules := true
    , rules := [(exportedRuleName, { severity := "error" })] }
    exportedRuleName { severity := "error" } rfl rfl (by decide)

theorem runRevive_atomic_on_error_witness :
    runRevive (Except.error "boom") (Except.ok ()) (Except.ok ())
        (Except.ok []) (fun _ => {}) (Except.ok ()) = (none, some "boom") :=
  (runRevive_atomic_on_error (Except.error "boom") (Except.ok ())
    (Except.ok ()) (Except.ok []) (fun _ => {}) (Except.ok ()) {} []
    "boom").2.1

/-! ## Key tracking through `createConfigMap` -/

theorem addRawRule_ok_keys (m : List (String × RawRule)) (s : SettingsRule)
    (m' : List (String × RawRule)) (h : addRawRule m s = Except.ok m') :
    ∀ p ∈ m', p.1 ∈ m.map Prod.fst ∨ p.1 = s.name := by
  unfold addRawRule at h
  rcases hs : safeTomlSlice s.arguments with e | args <;> rw [hs] at h
  · cases h
  · have h' : mapInsert m s.name ⟨s.severity, args, s.disabled⟩ = m' := by
      cases h; rfl
    intro p hp
    rw [← h'] at hp
    exact fst_mem_mapInsert _ _ _ _ hp

theorem foldlM_addRawRule_keys (l : List SettingsRule)
    (m out : List (String × RawRule))
    (h : l.foldlM addRawRule m = Except.ok out) :
    ∀ p ∈ out, p.1 ∈ m.map Prod.fst ∨ p.1 ∈ l.map SettingsRule.name := by
  induction l generalizing m with
  | nil =>
    rw [List.foldlM_nil] at h
    cases h
    intro p hp
    exact Or.inl (List.mem_map.2 ⟨p, hp, rfl⟩)
  | cons s l ih =>
    rw [List.foldlM_cons] at h
    rcases hs : addRawRule m s with e | m₁ <;> rw [hs] at h
    · cases h
    · intro p hp
      have h' : l.foldlM addRawRule m₁ = Except.ok out := h
      rcases ih m₁ h' p hp with hk | hk
      · rcases List.mem_map.1 hk with ⟨q, hq, hqe⟩
        rcases addRawRule_ok_keys m s m₁ hs q hq with hk2 | hk2
        · left; rw [← hqe]; exact hk2
        · right
          rw [List.map_cons, List.mem_cons]
          exact Or.inl (by rw [← hqe, hk2])
      · right
        rw [List.map_cons, List.mem_cons]
        exact Or.inr hk

theorem createConfigMap_ok (cfg : ReviveSettings) (root : RawRoot)
    (h : createConfigMap cfg = Except.ok root) :
    root.enableAllRules = cfg.enableAllRules
    ∧ root.confidence = cfg.confidence
    ∧ root.severity = cfg.severity
    ∧ ∀ p ∈ root.rule.getD [],
        p.1 ∈ cfg.rules.map SettingsRule.name := by
  unfold createConfigMap at h
  rcases hr : cfg.rules.foldlM addRawRule [] with e | rawRules <;> rw [hr] at h
  · cases h
  · cases h
    refine ⟨rfl, rfl, rfl, ?_⟩
    intro p hp
    dsimp only at hp
    have hkeys := foldlM_addRawRule_keys cfg.rules [] rawRules hr
    split at hp
    · rcases hkeys p hp with hk | hk
      · simp at hk
      · exact hk
    · simp at hp

theorem mem_allRules_of_default : ∀ r ∈ defaultRules, r ∈ allRules := by
  decide

/-- Counterexample to claim C9 as stated: the all-zero settings configure no
rules and do not set enable-all-rules, yet the resolved rule map is not
restricted to explicitly configured rules: it contains the whole default
catalogue (witnessed here by the exported rule). -/
theorem getReviveConfig_zero_not_only_explicit :
    emptyReviveSettings.enableAllRules = false
    ∧ emptyReviveSettings.rules = []
    ∧ getReviveConfig emptyReviveSettings
        = Except.ok (normalizeConfig defaultConfig)
    ∧ (exportedRuleName, ({ severity := severityWarning } : RuleConfig))
        ∈ (normalizeConfig defaultConfig).rules :=
  ⟨rfl, rfl, rfl, by decide⟩

/-- Claim C9 (amended): after `getReviveConfig` and normalization, when
enable-all-rules is set every key of the default rule catalogue is present;
when it is not set and the settings are not the all-zero value, the rule map
contains only the explicitly configured rules; the all-zero settings resolve
to exactly the default rule catalogue instead. -/
theorem getReviveConfig_rules_presence (s : ReviveSettings) (c : Config)
    (h : getReviveConfig s = Except.ok c) :
    (s.enableAllRules = true →
      ∀ n ∈ defaultRules, (List.lookup n c.rules).isSome)
    ∧ (s.enableAllRules = false → s ≠ emptyReviveSettings →
      ∀ p ∈ c.rules, p.1 ∈ s.rules.map SettingsRule.name)
    ∧ (s = emptyReviveSettings → c.rules.map Prod.fst = defaultRules) := by
  unfold getReviveConfig at h
  split at h
  · rename_i hemp
    cases h
    refine ⟨?_, ?_, ?_⟩
    · intro hall
      rw [hemp] at hall
      exact absurd hall (by decide)
    · intro _ hne
      exact absurd hemp hne
    · intro _
      decide
  · rename_i hne
    rcases hcm : createConfigMap s with e | root <;> rw [hcm] at h
    · cases h
    · have h' : Except.ok (normalizeConfig (decodeConfig root))
          = Except.ok c := h
      cases h'
      obtain ⟨he, _, _, hkeys⟩ := createConfigMap_ok s root hcm
      have hde : (decodeConfig root).enableAllRules = s.enableAllRules := he
      refine ⟨?_, ?_, ?_⟩
      · intro hall n hn
        exact normalizeConfig_allRules_present (decodeConfig root)
          (by rw [hde, hall]) n (mem_allRules_of_default n hn)
      · intro hnall _ p hp
        rw [normalizeConfig_rules, hde, hnall] at hp
        simp only [Bool.false_eq_true, if_false] at hp
        rcases List.mem_map.1 hp with ⟨q, hq, rfl⟩
        show q.1 ∈ s.rules.map SettingsRule.name
        unfold decodeConfig at hq
        dsimp only at hq
        rcases List.mem_map.1 hq with ⟨q0, hq0, hq0e⟩
        have : q.1 = q0.1 := by rw [← hq0e]
        rw [this]
        exact hkeys q0 hq0
      · intro hemp
        exact absurd hemp hne

theorem getReviveConfig_rules_presence_witness :
    (List.lookup exportedRuleName
      (normalizeConfig (decodeConfig
        ({ enableAllRules := true } : RawRoot))).rules).isSome :=
  (getReviveConfig_rules_presence { enableAllRules := true }
      (normalizeConfig (decodeConfig ({ enableAllRules := true } : RawRoot)))
      rfl).1 rfl exportedRuleName (by decide)

/-! ## Key coercion in `safeTomlSlice` -/

theorem coerceEntries_ok_of_allStringKeys :
    ∀ (es : GoEntries), es.allStringKeys = true →
      coerceEntries es = Except.ok es.stringifyKeys
  | .nil, _ => rfl
  | .cons k v rest, h => by
    simp only [GoEntries.allStringKeys, Bool.and_eq_true] at h
    cases k
    case str s =>
      have ih := coerceEntries_ok_of_allStringKeys rest h.2
      simp only [coerceEntries]
      rw [ih]
      rfl
    all_goals simp [isStringValue] at h

theorem coerceEntries_error_of_not :
    ∀ (es : GoEntries), es.allStringKeys = false →
      ∃ e, coerceEntries es = Except.error e
  | .nil, h => by simp [GoEntries.allStringKeys] at h
  | .cons k v rest, h => by
    simp only [GoEntries.allStringKeys, Bool.and_eq_false_iff] at h
    cases k
    case str s =>
      rcases h with h | h
      · simp [isStringValue] at h
      · rcases coerceEntries_error_of_not rest h with ⟨e, he⟩
        refine ⟨e, ?_⟩
        simp only [coerceEntries]
        rw [he]
        rfl
    all_goals exact ⟨_, rfl⟩

theorem coerceItem_ok_of (v : GoValue) (h : isStringKeyedAnyMap v = true) :
    coerceItem v = Except.ok (stringifyKeys v) := by
  cases v <;> simp only [isStringKeyedAnyMap] at h
  case anyMap entries =>
    simp only [coerceItem]
    rw [coerceEntries_ok_of_allStringKeys entries h]
    rfl
  all_goals exact absurd h (by decide)

theorem coerceItem_error_of (v : GoValue)
    (h : isStringKeyedAnyMap v = false) :
    ∃ e, coerceItem v = Except.error e := by
  cases v
  case anyMap entries =>
    simp only [isStringKeyedAnyMap] at h
    rcases coerceEntries_error_of_not entries h with ⟨e, he⟩
    refine ⟨e, ?_⟩
    simp only [coerceItem]
    rw [he]
    rfl
  all_goals exact ⟨_, rfl⟩

theorem mapM_coerceItem_ok (l : List GoValue)
    (h : l.all isStringKeyedAnyMap = true) :
    l.mapM coerceItem = Except.ok (l.map stringifyKeys) := by
  induction l with
  | nil => rfl
  | cons a l ih =>
    rw [List.all_cons, Bool.and_eq_true] at h
    rw [List.mapM_cons, coerceItem_ok_of a h.1, ih h.2]
    rfl

theorem mapM_coerceItem_error (l : List GoValue)
    (h : l.all isStringKeyedAnyMap = false) :
    ∃ e, l.mapM coerceItem = Except.error e := by
  induction l with
  | nil => simp at h
  | cons a l ih =>
    rw [List.all_cons, Bool.and_eq_false_iff] at h
    rcases h with ha | hl
    · rcases coerceItem_error_of a ha with ⟨e, he⟩
      refine ⟨e, ?_⟩
      rw [List.mapM_cons, he]
      rfl
    · rcases ih hl with ⟨e, he⟩
      rcases hca : coerceItem a with e2 | w
      · exact ⟨e2, by rw [List.mapM_cons, hca]; rfl⟩
      · exact ⟨e, by rw [List.mapM_cons, hca, he]; rfl⟩

/-- Counterexample to claim C6 as stated: this argument list contains a
map-like entry with a key that is not string-representable, yet neither
`safeTomlSlice` nor `createConfigMap` fails: the first element is not
map-like, so the whole list is returned unchanged, bad key included. -/
theorem safeTomlSlice_nonstring_key_no_failure :
    safeTomlSlice
        [GoValue.str "x",
         GoValue.anyMap (GoEntries.cons (GoValue.int 1) (GoValue.str "v")
           GoEntries.nil)]
      = Except.ok (some
          [GoValue.str "x",
           GoValue.anyMap (GoEntries.cons (GoValue.int 1) (GoValue.str "v")
             GoEntries.nil)])
    ∧ GoValue.anyMap (GoEntries.cons (GoValue.int 1) (GoValue.str "v")
          GoEntries.nil)
        ∈ [GoValue.str "x",
           GoValue.anyMap (GoEntries.cons (GoValue.int 1) (GoValue.str "v")
             GoEntries.nil)]
    ∧ isStringValue (GoValue.int 1) = false
    ∧ (createConfigMap
        { rules :=
          [{ name := "r"
           , arguments :=
             [GoValue.str "x",
              GoValue.anyMap (GoEntries.cons (GoValue.int 1) (GoValue.str "v")
                GoEntries.nil)] }] }).isOk = true :=
  ⟨rfl, by decide, rfl, rfl⟩

/-- Claim C6 (amended): only the first element decides whether coercion
runs. When the first element of the argument list is map-like,
`safeTomlSlice` succeeds with every element coerced to a string-keyed map
exactly when every element is an arbitrary-key map all of whose keys are
strings, and otherwise fails with the run-time type-assertion error (there
is no structured InvalidArgumentKind error in the code); and a failing
argument list makes the whole `createConfigMap` fail. -/
theorem safeTomlSlice_key_coercion (entries : GoEntries)
    (rest : List GoValue) :
    ((GoValue.anyMap entries :: rest).all isStringKeyedAnyMap = true →
      safeTomlSlice (GoValue.anyMap entries :: rest)
        = Except.ok (some
            ((GoValue.anyMap entries :: rest).map stringifyKeys)))
    ∧ ((GoValue.anyMap entries :: rest).all isStringKeyedAnyMap = false →
      ∃ e, safeTomlSlice (GoValue.anyMap entries :: rest)
        = Except.error e)
    ∧ ∀ (cfg : ReviveSettings) (sr : SettingsRule) (e : String),
        cfg.rules = [sr] → safeTomlSlice sr.arguments = Except.error e →
        createConfigMap cfg = Except.error e := by
  refine ⟨?_, ?_, ?_⟩
  · intro h
    simp only [safeTomlSlice]
    rw [if_pos (show isAnyMap (GoValue.anyMap entries) = true from rfl),
      mapM_coerceItem_ok _ h]
    rfl
  · intro h
    rcases mapM_coerceItem_error _ h with ⟨e, he⟩
    refine ⟨e, ?_⟩
    simp only [safeTomlSlice]
    rw [if_pos (show isAnyMap (GoValue.anyMap entries) = true from rfl), he]
    rfl
  · intro cfg sr e hrules hargs
    unfold createConfigMap
    rw [hrules, List.foldlM_cons]
    have hstep : addRawRule [] sr = Except.error e := by
      unfold addRawRule
      rw [hargs]
      rfl
    rw [hstep]
    rfl

theorem safeTomlSlice_key_coercion_witness :
    safeTomlSlice
        [GoValue.anyMap (GoEntries.cons (GoValue.str "a") (GoValue.int 2)
          GoEntries.nil)]
      = Except.ok (some
          [GoValue.strMap (GoStrEntries.cons "a" (GoValue.int 2)
            GoStrEntries.nil)]) :=
  (safeTomlSlice_key_coercion
    (GoEntries.cons (GoValue.str "a") (GoValue.int 2) GoEntries.nil) []).1
    (by decide)

/-- Counterexample to claim C7 as stated: this argument list contains a
map-like element (with string keys), yet the list passes through
`safeTomlSlice` unchanged because the first element is not map-like; the
map-like element is not coerced to a string-keyed map. -/
theorem safeTomlSlice_maplike_not_first_unchanged :
    safeTomlSlice
        [GoValue.int 3,
         GoValue.anyMap (GoEntries.cons (GoValue.str "k") (GoValue.int 1)
           GoEntries.nil)]
      = Except.ok (some
          [GoValue.int 3,
           GoValue.anyMap (GoEntries.cons (GoValue.str "k") (GoValue.int 1)
             GoEntries.nil)])
    ∧ GoValue.anyMap (GoEntries.cons (GoValue.str "k") (GoValue.int 1)
          GoEntries.nil)
        ∈ [GoValue.int 3,
           GoValue.anyMap (GoEntries.cons (GoValue.str "k") (GoValue.int 1)
             GoEntries.nil)]
    ∧ stringifyKeys (GoValue.anyMap (GoEntries.cons (GoValue.str "k")
          (GoValue.int 1) GoEntries.nil))
        ≠ GoValue.anyMap (GoEntries.cons (GoValue.str "k") (GoValue.int 1)
            GoEntries.nil) :=
  ⟨rfl, by decide, by decide⟩

/-- Claim C7 (amended): an empty argument list maps to nil, the omitted
field; when the first element is not map-like the whole list passes through
unchanged, nothing transformed; when the first element is map-like and every
element is an arbitrary-key map with string keys, every element has its keys
coerced to a string-keyed map. -/
theorem safeTomlSlice_argument_normalization :
    safeTomlSlice [] = Except.ok none
    ∧ (∀ (hd : GoValue) (rest : List GoValue), isAnyMap hd = false →
        safeTomlSlice (hd :: rest) = Except.ok (some (hd :: rest)))
    ∧ (∀ (hd : GoValue) (rest : List GoValue), isAnyMap hd = true →
        (hd :: rest).all isStringKeyedAnyMap = true →
        safeTomlSlice (hd :: rest)
          = Except.ok (some ((hd :: rest).map stringifyKeys))) := by
  refine ⟨rfl, fun hd rest h => ?_, fun hd rest h1 h2 => ?_⟩
  · simp only [safeTomlSlice]
    rw [if_neg (by simp [h])]
  · simp only [safeTomlSlice]
    rw [if_pos h1, mapM_coerceItem_ok _ h2]
    rfl

theorem safeTomlSlice_argument_normalization_witness :
    safeTomlSlice [GoValue.int 7] = Except.ok (some [GoValue.int 7]) :=
  safeTomlSlice_argument_normalization.2.1 (GoValue.int 7) [] rfl

end Revive
